import Mathlib

/-!
# Verification of the oddslib format converter

A shallow embedding of the conversion engine in src/oddslib/formats.py.

Modelling conventions:
* Python floats and ints are modelled as exact rationals (ℚ).  All claims
  under study quantify over exact-rational values, where the float results
  coincide with the rational ones.
* Raised Python exceptions are modelled as an Except error channel.
  ValueError carries the list of offending odds values that the exception
  message reports (empty when the message names no values); TypeError,
  ZeroDivisionError, the numpy cast failures and the ndarray.item size
  failure get their own constructors.
* numpy arrays are 1-D lists; scalar extraction with .item mirrors numpy:
  it succeeds only on a single-element array.
* Fraction.limit_denominator (Python standard library, called by the
  converter) is embedded with its actual algorithm: return the value
  unchanged when its reduced denominator is already within the bound,
  otherwise run the continued-fraction loop and pick the closer of the two
  candidate approximations.
-/

namespace Oddslib

/-- The OddsFormat enumeration of formats.py. -/
inductive OddsFormat
  | decimal
  | american
  | fractional
deriving DecidableEq

/-- Errors raised by the converter, tagged by Python exception class.
invalidOdds is a ValueError from a domain check, carrying the odds values
that the exception message itemizes (empty if the message names none).
typeMismatch is a TypeError, zeroDivision a ZeroDivisionError from
Fraction construction with a zero denominator, castError a failure of
numpy to coerce a value to float64, shapeError a numpy rank failure, and
itemError the ValueError of ndarray.item on an array of size other
than 1. -/
inductive OddsError
  | invalidOdds (reported : List ℚ)
  | typeMismatch
  | zeroDivision
  | castError
  | shapeError
  | itemError
deriving DecidableEq

/-- One Python value appearing as (or inside) a converter input:
an int, a float (exact rational value), a Fraction, a string of the
shape n/d, a nested two-element tuple, or any other object. -/
inductive Elem
  | int (n : ℤ)
  | flt (x : ℚ)
  | frac (q : ℚ)
  | text (n d : ℤ)
  | tupEl (a b : Elem)
  | other
deriving DecidableEq

/-- A top-level converter input: a non-sequence Python scalar, a tuple,
a list, or a 1-D numpy array. -/
inductive OddsInput
  | scalar (e : Elem)
  | tup (xs : List Elem)
  | lst (xs : List Elem)
  | arr (xs : List Elem)
deriving DecidableEq

/-- A converter result: a Python float scalar, a Python string scalar of
the shape n/d, a float64 ndarray, or an ndarray of n/d strings. -/
inductive OddsOutput
  | scalarF (x : ℚ)
  | scalarS (n d : ℤ)
  | arrF (xs : List ℚ)
  | arrS (xs : List (ℤ × ℤ))
deriving DecidableEq

/-- Elementwise traversal with fail-fast semantics: models both a Python
list comprehension over a converting function and np.vectorize, which
abort at the first raised exception. -/
def mapME (f : α → Except OddsError β) : List α → Except OddsError (List β)
  | [] => .ok []
  | x :: xs =>
    match f x with
    | .error e => .error e
    | .ok y =>
      match mapME f xs with
      | .error e => .error e
      | .ok ys => .ok (y :: ys)

/-- The continued-fraction loop of Fraction.limit_denominator.  State
(p0, q0) and (p1, q1) are the previous and current convergent of the
continued-fraction expansion of n/d; the loop stops when the next
convergent denominator would exceed maxDen (or the expansion ends) and
returns both convergents. -/
def limitDenAux (maxDen p0 q0 p1 q1 n : ℤ) (d : ℕ) : (ℤ × ℤ) × (ℤ × ℤ) :=
  if hd : d = 0 then ((p0, q0), (p1, q1))
  else
    let a : ℤ := n / (d : ℤ)
    if maxDen < q0 + a * q1 then ((p0, q0), (p1, q1))
    else limitDenAux maxDen p1 q1 (p0 + a * p1) (q0 + a * q1) (d : ℤ) (n % (d : ℤ)).toNat
termination_by d
decreasing_by
  have hdpos : 0 < ((d : ℕ) : ℤ) := by
    exact_mod_cast Nat.pos_of_ne_zero hd
  have h1 : 0 ≤ n % (d : ℤ) := Int.emod_nonneg n (by exact_mod_cast hd)
  have h2 : n % (d : ℤ) < (d : ℤ) := Int.emod_lt_of_pos n hdpos
  omega

/-- Fraction.limit_denominator from the Python standard library: the
closest fraction with denominator at most maxDen.  If the reduced
denominator is already within the bound the value is returned unchanged;
otherwise the continued-fraction loop runs and the closer of the two
candidate bounds is returned (the convergent on a tie). -/
def limit_denominator (q : ℚ) (maxDen : ℕ) : ℚ :=
  if q.den ≤ maxDen then q
  else
    let r := limitDenAux (maxDen : ℤ) 0 1 1 0 q.num q.den
    let k : ℤ := ((maxDen : ℤ) - r.1.2) / r.2.2
    let bound1 : ℚ := ((r.1.1 + k * r.2.1 : ℤ) : ℚ) / ((r.1.2 + k * r.2.2 : ℤ) : ℚ)
    let bound2 : ℚ := (r.2.1 : ℚ) / (r.2.2 : ℚ)
    if |bound2 - q| ≤ |bound1 - q| then bound2 else bound1

/-- isinstance(item, (int, float, Fraction)): the numeric-component test
used both by the pair clause of the scalar test and by the two-element
collapse of the fractional coercion. -/
def Elem.isComponent : Elem → Bool
  | .int _ => true
  | .flt _ => true
  | .frac _ => true
  | _ => false

/-- The value of an Elem when it is a Rational instance (an int or a
Fraction); floats, strings, tuples and other objects are not Rational. -/
def Elem.ratValue : Elem → Option ℚ
  | .int n => some (n : ℚ)
  | .frac q => some q
  | _ => none

/-- _is_scalar_input: Python scalars (numbers, strings, Fractions) are
scalar, as is a tuple of exactly two numeric components; lists and 1-D
arrays are not, and neither is an arbitrary object. -/
def isScalarInput : OddsInput → Bool
  | .scalar .other => false
  | .scalar (.tupEl a b) => a.isComponent && b.isComponent
  | .scalar _ => true
  | .tup xs => decide (xs.length = 2) && xs.all Elem.isComponent
  | .lst _ => false
  | .arr _ => false

/-- np.float64 coercion of one element, as applied inside
np.asarray(values, dtype=np.float64): numbers and Fractions convert,
n/d strings and arbitrary objects fail the cast, and a nested tuple
makes the array rank 2, failing the rank check. -/
def Elem.toFloat : Elem → Except OddsError ℚ
  | .int n => .ok (n : ℚ)
  | .flt x => .ok x
  | .frac q => .ok q
  | .text _ _ => .error .castError
  | .tupEl _ _ => .error .shapeError
  | .other => .error .castError

/-- _ensure_1d composed with the float64 coercion: a scalar becomes a
one-element array, a tuple, list or 1-D array becomes the elementwise
coercion of its items. -/
def ensure1d : OddsInput → Except OddsError (List ℚ)
  | .scalar e =>
    match e.toFloat with
    | .error err => .error err
    | .ok x => .ok [x]
  | .tup xs => mapME Elem.toFloat xs
  | .lst xs => mapME Elem.toFloat xs
  | .arr xs => mapME Elem.toFloat xs

/-- _coerce_fractional_inputs: a 1-D ndarray is listed elementwise with
no pair collapse; a non-array scalar becomes a one-element list; a
tuple or list of exactly two numeric components collapses into a single
numerator/denominator pair, and any other tuple or list is kept
elementwise. -/
def coerceFractionalInputs : OddsInput → List Elem
  | .scalar e => [e]
  | .arr xs => xs
  | .tup xs =>
    match xs with
    | [a, b] => if a.isComponent && b.isComponent then [.tupEl a b] else xs
    | _ => xs
  | .lst xs =>
    match xs with
    | [a, b] => if a.isComponent && b.isComponent then [.tupEl a b] else xs
    | _ => xs

/-- Fraction(n, d) for integer arguments: ZeroDivisionError on a zero
denominator, otherwise the normalized rational n/d. -/
def mkFraction (n d : ℤ) : Except OddsError ℚ :=
  if d = 0 then .error .zeroDivision else .ok ((n : ℚ) / (d : ℚ))

/-- Fraction(num, den) applied to the two members of a pair: both must be
Rational instances (TypeError otherwise), and a zero denominator raises
ZeroDivisionError. -/
def fractionOfPair (a b : Elem) : Except OddsError ℚ :=
  match a.ratValue, b.ratValue with
  | some x, some y => if y = 0 then .error .zeroDivision else .ok (x / y)
  | _, _ => .error .typeMismatch

/-- The per-element _convert closure of the fractional branch of
odds_to_decimal: build a Fraction from the element (approximating plain
numbers with limit_denominator 1000), require a positive value, and
return it plus 1. -/
def fracElemConvert (value : Elem) : Except OddsError ℚ :=
  let fracE : Except OddsError ℚ :=
    match value with
    | .frac q => .ok q
    | .text n d => mkFraction n d
    | .int n => .ok (limit_denominator (n : ℚ) 1000)
    | .flt x => .ok (limit_denominator x 1000)
    | .tupEl a b => fractionOfPair a b
    | .other => .error .typeMismatch
  match fracE with
  | .error e => .error e
  | .ok frac =>
    if frac.num ≤ 0 ∨ (frac.den : ℤ) ≤ 0 then .error (.invalidOdds [])
    else .ok (frac + 1)

/-- Final shape step of the converters: result.item() when the input was
scalar (a ValueError unless the array has exactly one element), the
array itself otherwise. -/
def itemF (scalar : Bool) (xs : List ℚ) : Except OddsError OddsOutput :=
  if scalar then
    match xs with
    | [x] => .ok (.scalarF x)
    | _ => .error .itemError
  else .ok (.arrF xs)

/-- odds_to_decimal of formats.py with the format resolved.  Decimal
input is passed through unvalidated; American input is rejected when any
entry is zero (message naming no values) or any magnitude is below 100
(message naming all offending values), and otherwise mapped by sign;
fractional input is coerced, converted elementwise, and returned as a
scalar when the input was scalar or the coerced list has one element. -/
def odds_to_decimal (odds : OddsInput) (fmt : OddsFormat) : Except OddsError OddsOutput :=
  let scalar_input := isScalarInput odds
  match fmt with
  | .decimal =>
    match ensure1d odds with
    | .error e => .error e
    | .ok xs => itemF scalar_input xs
  | .american =>
    match ensure1d odds with
    | .error e => .error e
    | .ok a =>
      if a.any (fun x => decide (x = 0)) then .error (.invalidOdds [])
      else
        let bad := a.filter (fun x => decide (|x| < 100))
        if bad.isEmpty then
          itemF scalar_input (a.map (fun x => if 0 < x then x / 100 + 1 else 100 / |x| + 1))
        else .error (.invalidOdds bad)
  | .fractional =>
    let arr := coerceFractionalInputs odds
    let scalar_fractional := scalar_input || decide (arr.length = 1)
    match mapME fracElemConvert arr with
    | .error e => .error e
    | .ok converted => itemF scalar_fractional converted

/-- The per-element _convert closure of the American branch of
decimal_to_odds: approximate the decimal value with denominator at most
1000; at least 2 gives (frac - 1) * 100, a ratio of exactly zero is a
ValueError, and otherwise the result is -100 / ratio. -/
def americanOut (value : ℚ) : Except OddsError ℚ :=
  let frac := limit_denominator value 1000
  if 2 ≤ frac then .ok ((frac - 1) * 100)
  else
    let ratio := frac - 1
    if ratio = 0 then .error (.invalidOdds [])
    else .ok (-100 / ratio)

/-- The per-element _convert closure of the fractional branch of
decimal_to_odds, applied to dec - 1: approximate with denominator at
most 1000, require a positive fraction, and emit numerator and
denominator of the reduced fraction. -/
def fractionalOut (value : ℚ) : Except OddsError (ℤ × ℤ) :=
  let frac := limit_denominator value 1000
  if frac.num ≤ 0 ∨ (frac.den : ℤ) ≤ 0 then .error (.invalidOdds [])
  else .ok (frac.num, (frac.den : ℤ))

/-- decimal_to_odds of formats.py with the target format resolved.
The input is coerced to a float array and validated to be at least 1.0
elementwise before any branch (the ValueError message names no values);
the decimal target is the identity, the American and fractional targets
convert elementwise, and the scalar/array shape of the input is
mirrored. -/
def decimal_to_odds (decimal_odds : OddsInput) (fmt : OddsFormat) : Except OddsError OddsOutput :=
  let scalar_input := isScalarInput decimal_odds
  match ensure1d decimal_odds with
  | .error e => .error e
  | .ok dec =>
    if dec.any (fun x => decide (x < 1)) then .error (.invalidOdds [])
    else
      match fmt with
      | .decimal => itemF scalar_input dec
      | .american =>
        match mapME americanOut dec with
        | .error e => .error e
        | .ok ys => itemF scalar_input ys
      | .fractional =>
        match mapME fractionalOut (dec.map (fun x => x - 1)) with
        | .error e => .error e
        | .ok fracs =>
          if scalar_input then
            match fracs with
            | [(n, d)] => .ok (.scalarS n d)
            | _ => .error .itemError
          else .ok (.arrS fracs)

/-- Reading a converter output back as a converter input: a float scalar
is a Python float, a string scalar a Python n/d string, a float array a
1-D float64 ndarray, and a string array a 1-D ndarray of n/d strings. -/
def outputToInput : OddsOutput → OddsInput
  | .scalarF x => .scalar (.flt x)
  | .scalarS n d => .scalar (.text n d)
  | .arrF xs => .arr (xs.map .flt)
  | .arrS ps => .arr (ps.map fun p => .text p.1 p.2)

/-- convert_odds of formats.py: route through decimal as the pivot. -/
def convert_odds (odds : OddsInput) (from_format to_format : OddsFormat) :
    Except OddsError OddsOutput :=
  match odds_to_decimal odds from_format with
  | .error e => .error e
  | .ok intermediate => decimal_to_odds (outputToInput intermediate) to_format

/-- Whether an output is a sequence (ndarray) rather than a scalar. -/
def isSeqOutput : OddsOutput → Bool
  | .arrF _ => true
  | .arrS _ => true
  | _ => false

/-- The length of an output when it is a sequence. -/
def outputShape : OddsOutput → Option ℕ
  | .arrF xs => some xs.length
  | .arrS xs => some xs.length
  | _ => none

/-- How many odds values an output carries: 1 for a scalar, the length
for a sequence. -/
def outputCount : OddsOutput → ℕ
  | .scalarF _ => 1
  | .scalarS _ _ => 1
  | .arrF xs => xs.length
  | .arrS xs => xs.length

/-- Whether an error is an InvalidOdds domain error (a ValueError from a
domain check). -/
def OddsError.isInvalidOdds : OddsError → Bool
  | .invalidOdds _ => true
  | _ => false

/-- Modelled from the spec wording of the American target of
from_decimal, for comparison with the source: approximate d - 1 as the
nearest rational with denominator at most 1000 to obtain a ratio; a
ratio of at least 2 gives (ratio - 1) * 100, a ratio of zero is an
InvalidOdds failure, and otherwise the result is -100 / ratio. -/
def americanOutClaim (d : ℚ) : Except OddsError ℚ :=
  let ratio := limit_denominator (d - 1) 1000
  if 2 ≤ ratio then .ok ((ratio - 1) * 100)
  else if ratio = 0 then .error (.invalidOdds [])
  else .ok (-100 / ratio)


/-! ## Basic lemmas about the embedding -/

theorem mapME_length {α β : Type} {f : α → Except OddsError β} (xs : List α) (ys : List β)
    (h : mapME f xs = .ok ys) : ys.length = xs.length := by
  induction xs generalizing ys with
  | nil =>
    simp only [mapME] at h
    cases h
    rfl
  | cons x xs ih =>
    simp only [mapME] at h
    cases hfx : f x with
    | error e => rw [hfx] at h; cases h
    | ok y =>
      rw [hfx] at h
      cases hms : mapME f xs with
      | error e => rw [hms] at h; cases h
      | ok ys0 =>
        rw [hms] at h
        cases h
        simp [ih ys0 hms]

theorem mapME_toFloat_flt (xs : List ℚ) :
    mapME Elem.toFloat (xs.map Elem.flt) = .ok xs := by
  induction xs with
  | nil => rfl
  | cons x xs ih => simp [mapME, Elem.toFloat, ih]

theorem ensure1d_lst_flt (xs : List ℚ) :
    ensure1d (.lst (xs.map Elem.flt)) = .ok xs := by
  simp [ensure1d, mapME_toFloat_flt]

theorem ensure1d_arr_flt (xs : List ℚ) :
    ensure1d (.arr (xs.map Elem.flt)) = .ok xs := by
  simp [ensure1d, mapME_toFloat_flt]

theorem ensure1d_scalar_flt (x : ℚ) :
    ensure1d (.scalar (.flt x)) = .ok [x] := rfl

theorem limit_denominator_of_den_le (q : ℚ) (maxDen : ℕ) (h : q.den ≤ maxDen) :
    limit_denominator q maxDen = q := by
  simp [limit_denominator, h]

theorem limitDenAux_invariant (maxDen : ℤ) (d : ℕ) :
    ∀ (p0 q0 p1 q1 n : ℤ),
      0 ≤ p0 → 0 ≤ q0 → 0 ≤ p1 → 0 ≤ q1 → 0 ≤ n →
      q0 ≤ maxDen → q1 ≤ maxDen →
      0 ≤ (limitDenAux maxDen p0 q0 p1 q1 n d).1.1 ∧
      0 ≤ (limitDenAux maxDen p0 q0 p1 q1 n d).1.2 ∧
      0 ≤ (limitDenAux maxDen p0 q0 p1 q1 n d).2.1 ∧
      0 ≤ (limitDenAux maxDen p0 q0 p1 q1 n d).2.2 ∧
      (limitDenAux maxDen p0 q0 p1 q1 n d).1.2 ≤ maxDen ∧
      (limitDenAux maxDen p0 q0 p1 q1 n d).2.2 ≤ maxDen := by
  induction d using Nat.strong_induction_on with
  | _ d ih =>
    intro p0 q0 p1 q1 n h0 h1 h2 h3 hn hb0 hb1
    rw [limitDenAux]
    by_cases hd : d = 0
    · simp only [hd, dite_true, reduceDIte]
      exact ⟨h0, h1, h2, h3, hb0, hb1⟩
    · simp only [hd, reduceDIte]
      by_cases hlt : maxDen < q0 + n / (d : ℤ) * q1
      · simp only [hlt, if_true, reduceIte]
        exact ⟨h0, h1, h2, h3, hb0, hb1⟩
      · simp only [hlt, if_false, reduceIte]
        have hdpos : (0:ℤ) < (d : ℤ) := by exact_mod_cast Nat.pos_of_ne_zero hd
        have ha : 0 ≤ n / (d : ℤ) := Int.ediv_nonneg hn (le_of_lt hdpos)
        have hmod : ((n % (d : ℤ)).toNat) < d := by
          have hge := Int.emod_nonneg n (ne_of_gt hdpos)
          have hlt2 := Int.emod_lt_of_pos n hdpos
          omega
        exact ih _ hmod p1 q1 (p0 + n / (d:ℤ) * p1) (q0 + n / (d:ℤ) * q1) (d : ℤ)
          h2 h3 (add_nonneg h0 (mul_nonneg ha h2)) (add_nonneg h1 (mul_nonneg ha h3))
          (le_of_lt hdpos) hb1 (not_lt.mp hlt)

theorem limit_denominator_nonneg (q : ℚ) (maxDen : ℕ) (hq : 0 ≤ q) (hm : 1 ≤ maxDen) :
    0 ≤ limit_denominator q maxDen := by
  rw [limit_denominator]
  by_cases h : q.den ≤ maxDen
  · simpa [h] using hq
  · simp only [h, if_false, reduceIte]
    have hnum : 0 ≤ q.num := Rat.num_nonneg.mpr hq
    have hinv := limitDenAux_invariant (maxDen : ℤ) q.den 0 1 1 0 q.num
      (le_refl 0) (by norm_num) (by norm_num) (le_refl 0) hnum
      (by exact_mod_cast hm) (by positivity)
    obtain ⟨i1, i2, i3, i4, i5, i6⟩ := hinv
    have hk : 0 ≤ ((maxDen : ℤ) - (limitDenAux (maxDen : ℤ) 0 1 1 0 q.num q.den).1.2) /
        (limitDenAux (maxDen : ℤ) 0 1 1 0 q.num q.den).2.2 :=
      Int.ediv_nonneg (by omega) i4
    split
    · exact div_nonneg (by exact_mod_cast i3) (by exact_mod_cast i4)
    · refine div_nonneg ?_ ?_
      · have : (0:ℤ) ≤ (limitDenAux (maxDen : ℤ) 0 1 1 0 q.num q.den).1.1 +
            ((maxDen : ℤ) - (limitDenAux (maxDen : ℤ) 0 1 1 0 q.num q.den).1.2) /
              (limitDenAux (maxDen : ℤ) 0 1 1 0 q.num q.den).2.2 *
              (limitDenAux (maxDen : ℤ) 0 1 1 0 q.num q.den).2.1 :=
          add_nonneg i1 (mul_nonneg hk i3)
        exact_mod_cast this
      · have : (0:ℤ) ≤ (limitDenAux (maxDen : ℤ) 0 1 1 0 q.num q.den).1.2 +
            ((maxDen : ℤ) - (limitDenAux (maxDen : ℤ) 0 1 1 0 q.num q.den).1.2) /
              (limitDenAux (maxDen : ℤ) 0 1 1 0 q.num q.den).2.2 *
              (limitDenAux (maxDen : ℤ) 0 1 1 0 q.num q.den).2.2 :=
          add_nonneg i2 (mul_nonneg hk i4)
        exact_mod_cast this

/-- C4: for a scalar American source value a, odds_to_decimal fails with
InvalidOdds when a = 0 (no values reported) or when the magnitude is
below 100 (reporting a), and otherwise returns a/100 + 1 for positive a
and 100/|a| + 1 for negative a; in particular 100 and -100 both map to
exactly 2, while 99 and 0 fail. -/
theorem C4_american_source (a : ℚ) :
    odds_to_decimal (.scalar (.flt a)) .american =
      (if a = 0 then .error (.invalidOdds [])
       else if |a| < 100 then .error (.invalidOdds [a])
       else .ok (.scalarF (if 0 < a then a / 100 + 1 else 100 / |a| + 1))) ∧
    odds_to_decimal (.scalar (.int 100)) .american = .ok (.scalarF 2) ∧
    odds_to_decimal (.scalar (.int (-100))) .american = .ok (.scalarF 2) ∧
    odds_to_decimal (.scalar (.int 99)) .american = .error (.invalidOdds [99]) ∧
    odds_to_decimal (.scalar (.int 0)) .american = .error (.invalidOdds []) := by
  refine ⟨?_, ?_, ?_, ?_, ?_⟩
  · by_cases h0 : a = 0
    · subst h0
      norm_num [odds_to_decimal, ensure1d, Elem.toFloat, isScalarInput, itemF]
    · by_cases h1 : |a| < 100
      · simp [odds_to_decimal, ensure1d, Elem.toFloat, isScalarInput, itemF,
          h0, h1, decide_eq_true_eq, List.filter_cons]
      · simp [odds_to_decimal, ensure1d, Elem.toFloat, isScalarInput, itemF,
          h0, h1, decide_eq_true_eq, List.filter_cons]
  · norm_num [odds_to_decimal, ensure1d, Elem.toFloat, isScalarInput, itemF,
      decide_eq_true_eq, List.filter_cons]
  · norm_num [odds_to_decimal, ensure1d, Elem.toFloat, isScalarInput, itemF,
      decide_eq_true_eq, List.filter_cons]
  · norm_num [odds_to_decimal, ensure1d, Elem.toFloat, isScalarInput, itemF,
      decide_eq_true_eq, List.filter_cons]
  · norm_num [odds_to_decimal, ensure1d, Elem.toFloat, isScalarInput, itemF,
      decide_eq_true_eq, List.filter_cons]

/-- C4 witness: instantiating the universal part at a = -120 gives the
expected decimal value 11/6. -/
theorem C4_american_source_witness :
    odds_to_decimal (.scalar (.flt (-120))) .american = .ok (.scalarF (11/6)) := by
  have h := (C4_american_source (-120)).1
  rw [h]
  norm_num

/-- C5: decimal_to_odds rejects any input with an element below 1.0 with
InvalidOdds for every target format before any format-specific work, with
no partial result; the boundary cases 0.99 to American, 1.0 to American
(ratio-zero) and 1.0 to fractional all fail with InvalidOdds. -/
theorem C5_validation :
    (∀ (fmt : OddsFormat) (xs : List ℚ) (x : ℚ), x ∈ xs → x < 1 →
      decimal_to_odds (.lst (xs.map Elem.flt)) fmt = .error (.invalidOdds [])) ∧
    (∀ (fmt : OddsFormat) (x : ℚ), x < 1 →
      decimal_to_odds (.scalar (.flt x)) fmt = .error (.invalidOdds [])) ∧
    decimal_to_odds (.scalar (.flt (99/100))) .american = .error (.invalidOdds []) ∧
    decimal_to_odds (.scalar (.flt 1)) .american = .error (.invalidOdds []) ∧
    decimal_to_odds (.scalar (.flt 1)) .fractional = .error (.invalidOdds []) := by
  refine ⟨?_, ?_, ?_, ?_, ?_⟩
  · intro fmt xs x hmem hlt
    have hany : xs.any (fun y => decide (y < 1)) = true :=
      List.any_eq_true.mpr ⟨x, hmem, by simpa using hlt⟩
    simp [decimal_to_odds, ensure1d_lst_flt, hany]
  · intro fmt x hlt
    simp [decimal_to_odds, ensure1d, Elem.toFloat, hlt, decide_eq_true_eq]
  · norm_num [decimal_to_odds, ensure1d, Elem.toFloat, isScalarInput,
      decide_eq_true_eq, mapME, americanOut, limit_denominator]
  · norm_num [decimal_to_odds, ensure1d, Elem.toFloat, isScalarInput,
      decide_eq_true_eq, mapME, americanOut, limit_denominator]
  · norm_num [decimal_to_odds, ensure1d, Elem.toFloat, isScalarInput,
      decide_eq_true_eq, mapME, fractionalOut, limit_denominator]

/-- C5 witness: the batch part at the concrete batch [1/2] under the
decimal target. -/
theorem C5_validation_witness :
    decimal_to_odds (.lst [Elem.flt (1/2)]) .decimal = .error (.invalidOdds []) := by
  have h := C5_validation.1 .decimal [1/2] (1/2) (by simp) (by norm_num)
  simpa using h

/-- C7: odds_to_decimal with the decimal source format is the identity
and performs no domain validation: every scalar value, even one below
1.0, is passed through unchanged, and list inputs likewise. -/
theorem C7_decimal_identity :
    (∀ x : ℚ, odds_to_decimal (.scalar (.flt x)) .decimal = .ok (.scalarF x)) ∧
    (∀ xs : List ℚ, odds_to_decimal (.lst (xs.map Elem.flt)) .decimal = .ok (.arrF xs)) ∧
    odds_to_decimal (.scalar (.flt (1/2))) .decimal = .ok (.scalarF (1/2)) := by
  refine ⟨?_, ?_, ?_⟩
  · intro x; rfl
  · intro xs
    simp [odds_to_decimal, ensure1d_lst_flt, itemF, isScalarInput]
  · rfl

/-- Scalar-float specialization of decimal_to_odds for the American
target: once the input passes the at-least-1 validation, the result is
the per-element conversion wrapped as a scalar. -/
theorem decimal_to_odds_american_scalar (d : ℚ) (h : ¬ d < 1) :
    decimal_to_odds (.scalar (.flt d)) .american =
      (match americanOut d with
       | .error e => .error e
       | .ok v => .ok (.scalarF v)) := by
  have hany : [d].any (fun y => decide (y < 1)) = false := by
    simp [h]
  cases hA : americanOut d with
  | error e =>
    simp [decimal_to_odds, ensure1d, Elem.toFloat, isScalarInput, hany, mapME, hA]
  | ok v =>
    simp [decimal_to_odds, ensure1d, Elem.toFloat, isScalarInput, hany, mapME, hA, itemF]

/-- When the decimal value is already an exact rational with denominator
within the bound, the American per-element conversion has the closed
form over the value itself. -/
theorem americanOut_of_den_le (d : ℚ) (hden : d.den ≤ 1000) :
    americanOut d =
      (if 2 ≤ d then .ok ((d - 1) * 100)
       else if d = 1 then .error (.invalidOdds [])
       else .ok (-100 / (d - 1))) := by
  have hld : limit_denominator d 1000 = d := limit_denominator_of_den_le d 1000 hden
  simp only [americanOut, hld, sub_eq_zero]

/-- C2 (amended): decimal_to_odds with American target approximates the
decimal value d itself as the nearest rational with denominator at most
1000 and subtracts 1 to obtain the ratio; a ratio of at least 1 gives
ratio * 100, a ratio of exactly 0 fails with InvalidOdds, and any other
ratio gives -100 / ratio. -/
theorem C2_american_target (d : ℚ) (h : 1 ≤ d) :
    decimal_to_odds (.scalar (.flt d)) .american =
      (if 1 ≤ limit_denominator d 1000 - 1 then
        .ok (.scalarF ((limit_denominator d 1000 - 1) * 100))
       else if limit_denominator d 1000 - 1 = 0 then .error (.invalidOdds [])
       else .ok (.scalarF (-100 / (limit_denominator d 1000 - 1)))) := by
  rw [decimal_to_odds_american_scalar d (by linarith)]
  simp only [americanOut]
  rcases lt_or_le (limit_denominator d 1000) 2 with h2 | h2
  · rw [if_neg (show ¬ (2:ℚ) ≤ limit_denominator d 1000 by linarith),
      if_neg (show ¬ (1:ℚ) ≤ limit_denominator d 1000 - 1 by intro hc; linarith)]
    by_cases h0 : limit_denominator d 1000 - 1 = 0
    · rw [if_pos h0, if_pos h0]
    · rw [if_neg h0, if_neg h0]
  · rw [if_pos h2, if_pos (show (1:ℚ) ≤ limit_denominator d 1000 - 1 by linarith)]

/-- C2 witness: at d = 4 the amended description evaluates to +300. -/
theorem C2_american_target_witness :
    decimal_to_odds (.scalar (.flt 4)) .american = .ok (.scalarF 300) := by
  have h := C2_american_target 4 (by norm_num)
  rw [h]
  norm_num [limit_denominator]

/-- C2 counterexample: the claim approximates d - 1 as the ratio and
returns (ratio - 1) * 100 when the ratio is at least 2; at d = 4 that
yields 200, while the code yields 300. -/
theorem C2_counterexample :
    decimal_to_odds (.scalar (.flt 4)) .american = .ok (.scalarF 300) ∧
    americanOutClaim 4 = .ok 200 ∧ (300 : ℚ) ≠ 200 := by
  refine ⟨?_, ?_, by norm_num⟩
  · norm_num [decimal_to_odds, ensure1d, Elem.toFloat, isScalarInput,
      decide_eq_true_eq, mapME, americanOut, limit_denominator, itemF]
  · norm_num [americanOutClaim, limit_denominator]

/-- C1 (amended): for an integer American value x with magnitude at
least 100 whose decimal image is an exact rational with denominator at
most 1000, converting to decimal and back to American returns exactly x,
except that x = -100 (decimal 2.0) canonicalizes to +100. -/
theorem C1_roundtrip (x : ℤ) (hx : 100 ≤ |x|) (d : ℚ)
    (h1 : odds_to_decimal (.scalar (.int x)) .american = .ok (.scalarF d))
    (hden : d.den ≤ 1000) :
    decimal_to_odds (.scalar (.flt d)) .american =
      .ok (.scalarF (if x = -100 then (100 : ℚ) else (x : ℚ))) := by
  have hxz : x ≠ 0 := by
    intro h
    rw [h] at hx
    norm_num at hx
  have hx0 : (x : ℚ) ≠ 0 := by exact_mod_cast hxz
  have habs : ¬ |(x : ℚ)| < 100 := by
    rw [← Int.cast_abs]
    exact not_lt.mpr (by exact_mod_cast hx)
  have hE : odds_to_decimal (.scalar (.int x)) .american =
      .ok (.scalarF (if 0 < (x : ℚ) then (x : ℚ) / 100 + 1 else 100 / |(x : ℚ)| + 1)) := by
    simp [odds_to_decimal, ensure1d, Elem.toFloat, isScalarInput, itemF,
      decide_eq_true_eq, List.filter_cons, hx0, habs]
  rw [hE] at h1
  simp only [Except.ok.injEq, OddsOutput.scalarF.injEq] at h1
  rcases lt_trichotomy x 0 with hneg | hzero | hpos
  · -- negative source value: d = 100 / (-x) + 1
    have hxQneg : (x : ℚ) < 0 := by exact_mod_cast hneg
    rw [if_neg (not_lt.mpr (le_of_lt hxQneg)), abs_of_neg hxQneg] at h1
    rw [abs_of_neg hneg] at hx
    have hxpos : (0 : ℚ) < -(x : ℚ) := by linarith
    have hfracpos : (0 : ℚ) < 100 / -(x : ℚ) := div_pos (by norm_num) hxpos
    have hd1 : ¬ d < 1 := by rw [← h1]; push_neg; linarith
    rw [decimal_to_odds_american_scalar d hd1, americanOut_of_den_le d hden]
    by_cases hm : x = -100
    · have hd2 : d = 2 := by rw [← h1, hm]; norm_num
      rw [hd2, if_pos (show (2:ℚ) ≤ 2 by norm_num), if_pos hm]
      norm_num
    · have hbig : (100 : ℚ) < -(x : ℚ) := by
        have h100 : (100 : ℤ) < -x := by omega
        exact_mod_cast h100
      have hfrac1 : 100 / -(x : ℚ) < 1 := (div_lt_one hxpos).mpr hbig
      have hdlt : ¬ 2 ≤ d := by rw [← h1]; push_neg; linarith
      have hdne : d ≠ 1 := by
        rw [← h1]
        intro hc
        have hzero : (100 : ℚ) / -(x : ℚ) = 0 := by linarith
        exact absurd hzero (ne_of_gt hfracpos)
      rw [if_neg hdlt, if_neg hdne, if_neg hm]
      have harg : -100 / (d - 1) = (x : ℚ) := by
        rw [← h1]
        field_simp
      rw [harg]
  · exact absurd hx (by rw [hzero]; norm_num)
  · -- positive source value: d = x / 100 + 1
    have hxQpos : (0 : ℚ) < (x : ℚ) := by exact_mod_cast hpos
    rw [if_pos hxQpos] at h1
    rw [abs_of_pos hpos] at hx
    have hge : (100 : ℚ) ≤ (x : ℚ) := by exact_mod_cast hx
    have hd2 : 2 ≤ d := by
      rw [← h1]
      have hq : (1 : ℚ) ≤ (x : ℚ) / 100 := (le_div_iff₀ (by norm_num)).mpr (by linarith)
      linarith
    rw [decimal_to_odds_american_scalar d (by linarith), americanOut_of_den_le d hden,
      if_pos hd2, if_neg (show ¬ x = -100 by omega)]
    have harg : (d - 1) * 100 = (x : ℚ) := by
      rw [← h1]
      field_simp
    rw [harg]

/-- C1 witness: the round trip at x = -110, whose decimal image is
21/11. -/
theorem C1_roundtrip_witness :
    decimal_to_odds (.scalar (.flt (21/11))) .american =
      .ok (.scalarF (if (-110 : ℤ) = -100 then (100 : ℚ) else ((-110 : ℤ) : ℚ))) :=
  C1_roundtrip (-110) (by norm_num) (21/11)
    (by norm_num [odds_to_decimal, ensure1d, Elem.toFloat, isScalarInput,
      decide_eq_true_eq, List.filter_cons, itemF])
    (by norm_num)

/-- C1 counterexample: at x = -100 the decimal image is exactly 2.0 and
the return conversion yields +100, not -100. -/
theorem C1_counterexample :
    odds_to_decimal (.scalar (.int (-100))) .american = .ok (.scalarF 2) ∧
    decimal_to_odds (.scalar (.flt 2)) .american = .ok (.scalarF 100) ∧
    (100 : ℚ) ≠ -100 := by
  refine ⟨?_, ?_, by norm_num⟩
  · norm_num [odds_to_decimal, ensure1d, Elem.toFloat, isScalarInput,
      decide_eq_true_eq, List.filter_cons, itemF]
  · norm_num [decimal_to_odds, ensure1d, Elem.toFloat, isScalarInput,
      decide_eq_true_eq, mapME, americanOut, limit_denominator, itemF]

/-- Scalar-float specialization of decimal_to_odds for the fractional
target: once the input passes the at-least-1 validation, the result is
the per-element conversion of d - 1 wrapped as a scalar n/d string. -/
theorem decimal_to_odds_fractional_scalar (d : ℚ) (h : ¬ d < 1) :
    decimal_to_odds (.scalar (.flt d)) .fractional =
      (match fractionalOut (d - 1) with
       | .error e => .error e
       | .ok p => .ok (.scalarS p.1 p.2)) := by
  cases hF : fractionalOut (d - 1) with
  | error e =>
    simp [decimal_to_odds, ensure1d, Elem.toFloat, isScalarInput, h, mapME, hF]
  | ok p =>
    obtain ⟨n, m⟩ := p
    simp [decimal_to_odds, ensure1d, Elem.toFloat, isScalarInput, h, mapME, hF]

/-- Fractional-source conversion of a scalar n/d string with a nonzero
denominator and positive value: the result is the scalar n/m + 1. -/
theorem odds_to_decimal_text (n m : ℤ) (hm : m ≠ 0) (hpos : 0 < (n : ℚ) / (m : ℚ)) :
    odds_to_decimal (.scalar (.text n m)) .fractional =
      .ok (.scalarF ((n : ℚ) / (m : ℚ) + 1)) := by
  have hnum : ¬ ((n : ℚ) / (m : ℚ)).num ≤ 0 := not_le.mpr (Rat.num_pos.mpr hpos)
  have hden : ¬ ((((n : ℚ) / (m : ℚ)).den : ℤ) ≤ 0) := by
    have hp := ((n : ℚ) / (m : ℚ)).den_pos
    exact not_le.mpr (by exact_mod_cast hp)
  simp [odds_to_decimal, coerceFractionalInputs, isScalarInput, mapME, fracElemConvert,
    mkFraction, hm, itemF, hnum, hden]

/-- C10: for a scalar decimal input d greater than 1, every successful
decimal_to_odds output revalidates as an input of odds_to_decimal in the
same format: the American result is a nonzero scalar of magnitude at
least 100, the fractional result is an n/d string with strictly positive
numerator and denominator, and re-converting the output to decimal in
that format succeeds (never raises InvalidOdds). -/
theorem C10_output_revalidates (d : ℚ) (hd : 1 < d) (fmt : OddsFormat) (r : OddsOutput)
    (h : decimal_to_odds (.scalar (.flt d)) fmt = .ok r) :
    (∃ y, odds_to_decimal (outputToInput r) fmt = .ok y) ∧
    (fmt = .american → ∃ x, r = .scalarF x ∧ x ≠ 0 ∧ 100 ≤ |x|) ∧
    (fmt = .fractional → ∃ n m : ℤ, r = .scalarS n m ∧ 0 < n ∧ 0 < m) := by
  have hd1 : ¬ d < 1 := by linarith
  cases fmt with
  | decimal =>
    have heval : decimal_to_odds (.scalar (.flt d)) .decimal = .ok (.scalarF d) := by
      simp [decimal_to_odds, ensure1d, Elem.toFloat, isScalarInput, itemF, hd1]
    rw [heval] at h
    cases h
    refine ⟨⟨.scalarF d, rfl⟩, ?_, ?_⟩
    · intro hc; cases hc
    · intro hc; cases hc
  | american =>
    rw [decimal_to_odds_american_scalar d hd1] at h
    cases hA : americanOut d with
    | error e => rw [hA] at h; cases h
    | ok v =>
      rw [hA] at h
      cases h
      have hf0 : 0 ≤ limit_denominator d 1000 :=
        limit_denominator_nonneg d 1000 (by linarith) (by norm_num)
      have hv : v ≠ 0 ∧ 100 ≤ |v| := by
        simp only [americanOut] at hA
        by_cases h2 : 2 ≤ limit_denominator d 1000
        · rw [if_pos h2] at hA
          cases hA
          have hvpos : (0 : ℚ) < (limit_denominator d 1000 - 1) * 100 := by nlinarith
          refine ⟨ne_of_gt hvpos, ?_⟩
          rw [abs_of_pos hvpos]
          nlinarith
        · rw [if_neg h2] at hA
          by_cases h0 : limit_denominator d 1000 - 1 = 0
          · rw [if_pos h0] at hA; cases hA
          · rw [if_neg h0] at hA
            cases hA
            have hlt2 : limit_denominator d 1000 < 2 := not_le.mp h2
            have hrabs : |limit_denominator d 1000 - 1| ≤ 1 := by
              rw [abs_le]
              exact ⟨by linarith, by linarith⟩
            have hrpos : 0 < |limit_denominator d 1000 - 1| := abs_pos.mpr h0
            refine ⟨div_ne_zero (by norm_num) h0, ?_⟩
            rw [abs_div, le_div_iff₀ hrpos]
            have h100 : |(-100 : ℚ)| = 100 := by norm_num
            rw [h100]
            nlinarith
      obtain ⟨hv0, hv100⟩ := hv
      have habs : ¬ |v| < 100 := not_lt.mpr hv100
      refine ⟨⟨.scalarF (if 0 < v then v / 100 + 1 else 100 / |v| + 1), ?_⟩, ?_, ?_⟩
      · simp [outputToInput, odds_to_decimal, ensure1d, Elem.toFloat, isScalarInput, itemF,
          decide_eq_true_eq, List.filter_cons, hv0, habs]
      · intro _
        exact ⟨v, rfl, hv0, hv100⟩
      · intro hc; cases hc
  | fractional =>
    rw [decimal_to_odds_fractional_scalar d hd1] at h
    cases hF : fractionalOut (d - 1) with
    | error e => rw [hF] at h; cases h
    | ok p =>
      rw [hF] at h
      obtain ⟨n, m⟩ := p
      cases h
      simp only [fractionalOut] at hF
      by_cases h0 : (limit_denominator (d - 1) 1000).num ≤ 0 ∨
          (((limit_denominator (d - 1) 1000).den : ℤ) ≤ 0)
      · rw [if_pos h0] at hF; cases hF
      · rw [if_neg h0] at hF
        cases hF
        push_neg at h0
        obtain ⟨hn, hm⟩ := h0
        have hfpos : 0 < limit_denominator (d - 1) 1000 := Rat.num_pos.mp hn
        have hmne : (((limit_denominator (d - 1) 1000).den : ℤ)) ≠ 0 := ne_of_gt hm
        have hcast : (((limit_denominator (d - 1) 1000).num : ℚ)) /
            ((((limit_denominator (d - 1) 1000).den : ℤ) : ℚ)) =
            limit_denominator (d - 1) 1000 := by
          push_cast
          exact Rat.num_div_den (limit_denominator (d - 1) 1000)
        have hre := odds_to_decimal_text (limit_denominator (d - 1) 1000).num
          ((limit_denominator (d - 1) 1000).den : ℤ) hmne (by rw [hcast]; exact hfpos)
        refine ⟨⟨.scalarF (((limit_denominator (d - 1) 1000).num : ℚ) /
            ((((limit_denominator (d - 1) 1000).den : ℤ)) : ℚ) + 1), ?_⟩, ?_, ?_⟩
        · simpa [outputToInput] using hre
        · intro hc; cases hc
        · intro _
          exact ⟨(limit_denominator (d - 1) 1000).num,
            ((limit_denominator (d - 1) 1000).den : ℤ), rfl, hn, hm⟩

/-- C10 witness: at d = 3/2 the American target yields -200, which
revalidates as an American input. -/
theorem C10_output_revalidates_witness :
    (∃ y, odds_to_decimal (outputToInput (.scalarF (-200))) .american = .ok y) ∧
    (∃ x, (OddsOutput.scalarF (-200) : OddsOutput) = .scalarF x ∧ x ≠ 0 ∧ 100 ≤ |x|) := by
  have h := C10_output_revalidates (3/2) (by norm_num) .american (.scalarF (-200))
    (by norm_num [decimal_to_odds, ensure1d, Elem.toFloat, isScalarInput,
      decide_eq_true_eq, mapME, americanOut, limit_denominator, itemF])
  exact ⟨h.1, h.2.1 rfl⟩

/-! ## Shape lemmas for the scalar/sequence contract -/

theorem itemF_true_ok (xs : List ℚ) (r : OddsOutput) (h : itemF true xs = .ok r) :
    ∃ x, xs = [x] ∧ r = .scalarF x := by
  cases xs with
  | nil => simp [itemF] at h
  | cons x t =>
    cases t with
    | nil =>
      simp only [itemF] at h
      cases h
      exact ⟨x, rfl, rfl⟩
    | cons y t2 => simp [itemF] at h

theorem itemF_false_eq (xs : List ℚ) : itemF false xs = .ok (.arrF xs) := rfl

theorem ensure1d_scalar_ok (e : Elem) (xs : List ℚ) (h : ensure1d (.scalar e) = .ok xs) :
    (∃ x, xs = [x]) ∧ isScalarInput (.scalar e) = true := by
  cases e with
  | int n =>
    simp only [ensure1d, Elem.toFloat] at h
    cases h
    exact ⟨⟨(n : ℚ), rfl⟩, rfl⟩
  | flt x =>
    simp only [ensure1d, Elem.toFloat] at h
    cases h
    exact ⟨⟨x, rfl⟩, rfl⟩
  | frac q =>
    simp only [ensure1d, Elem.toFloat] at h
    cases h
    exact ⟨⟨q, rfl⟩, rfl⟩
  | text n m => simp [ensure1d, Elem.toFloat] at h
  | tupEl a b => simp [ensure1d, Elem.toFloat] at h
  | other => simp [ensure1d, Elem.toFloat] at h

theorem mapME_singleton {α β : Type} {f : α → Except OddsError β} {x : α} {ys : List β}
    (h : mapME f [x] = .ok ys) : ∃ y, f x = .ok y ∧ ys = [y] := by
  simp only [mapME] at h
  cases hf : f x with
  | error e => rw [hf] at h; cases h
  | ok y =>
    simp only [hf] at h
    cases h
    exact ⟨y, rfl, rfl⟩

/-- Scalar inputs of odds_to_decimal only ever produce scalar outputs. -/
theorem odds_to_decimal_scalar_shape (e : Elem) (fmt : OddsFormat) (r : OddsOutput)
    (h : odds_to_decimal (.scalar e) fmt = .ok r) : isSeqOutput r = false := by
  cases fmt with
  | decimal =>
    simp only [odds_to_decimal] at h
    cases hE : ensure1d (.scalar e) with
    | error err => rw [hE] at h; cases h
    | ok xs =>
      obtain ⟨⟨x, rfl⟩, hsc⟩ := ensure1d_scalar_ok e xs hE
      simp only [hE, hsc] at h
      obtain ⟨x1, hx1, rfl⟩ := itemF_true_ok [x] r h
      rfl
  | american =>
    simp only [odds_to_decimal] at h
    cases hE : ensure1d (.scalar e) with
    | error err => rw [hE] at h; cases h
    | ok xs =>
      obtain ⟨⟨x, rfl⟩, hsc⟩ := ensure1d_scalar_ok e xs hE
      simp only [hE, hsc] at h
      by_cases h0 : [x].any (fun y => decide (y = 0)) = true
      · rw [if_pos h0] at h; cases h
      · rw [if_neg h0] at h
        by_cases hb : ([x].filter (fun y => decide (|y| < 100))).isEmpty = true
        · rw [if_pos hb] at h
          obtain ⟨x1, hx1, rfl⟩ := itemF_true_ok _ r h
          rfl
        · rw [if_neg hb] at h; cases h
  | fractional =>
    simp only [odds_to_decimal, coerceFractionalInputs] at h
    have hsf : (isScalarInput (.scalar e) || decide (([e] : List Elem).length = 1)) = true := by
      simp
    rw [hsf] at h
    cases hM : mapME fracElemConvert [e] with
    | error err => rw [hM] at h; cases h
    | ok conv =>
      simp only [hM] at h
      obtain ⟨x1, hx1, rfl⟩ := itemF_true_ok conv r h
      rfl

/-- Scalar inputs of decimal_to_odds only ever produce scalar outputs. -/
theorem decimal_to_odds_scalar_shape (e : Elem) (fmt : OddsFormat) (r : OddsOutput)
    (h : decimal_to_odds (.scalar e) fmt = .ok r) : isSeqOutput r = false := by
  simp only [decimal_to_odds] at h
  cases hE : ensure1d (.scalar e) with
  | error err => rw [hE] at h; cases h
  | ok xs =>
    obtain ⟨⟨x, rfl⟩, hsc⟩ := ensure1d_scalar_ok e xs hE
    simp only [hE, hsc] at h
    by_cases hv : [x].any (fun y => decide (y < 1)) = true
    · rw [if_pos hv] at h; cases h
    · rw [if_neg hv] at h
      cases fmt with
      | decimal =>
        obtain ⟨x1, hx1, rfl⟩ := itemF_true_ok [x] r h
        rfl
      | american =>
        cases hM : mapME americanOut [x] with
        | error err => rw [hM] at h; cases h
        | ok ys =>
          simp only [hM] at h
          obtain ⟨x1, hx1, rfl⟩ := itemF_true_ok ys r h
          rfl
      | fractional =>
        simp only [List.map_cons, List.map_nil] at h
        cases hM : mapME fractionalOut [x - 1] with
        | error err => rw [hM] at h; cases h
        | ok fracs =>
          simp only [hM] at h
          obtain ⟨p, hp, rfl⟩ := mapME_singleton hM
          obtain ⟨n, m⟩ := p
          cases h
          rfl

/-- Sequence inputs of decimal_to_odds produce same-length sequence
outputs, for every target format. -/
theorem decimal_to_odds_seq_shape (inp : OddsInput) (es : List Elem)
    (hsc : isScalarInput inp = false) (hen : ensure1d inp = mapME Elem.toFloat es)
    (fmt : OddsFormat) (r : OddsOutput)
    (h : decimal_to_odds inp fmt = .ok r) : outputShape r = some es.length := by
  simp only [decimal_to_odds, hen, hsc] at h
  cases hE : mapME Elem.toFloat es with
  | error err => rw [hE] at h; cases h
  | ok xs =>
    simp only [hE] at h
    have hlen : xs.length = es.length := mapME_length es xs hE
    by_cases hv : xs.any (fun y => decide (y < 1)) = true
    · rw [if_pos hv] at h; cases h
    · rw [if_neg hv] at h
      cases fmt with
      | decimal =>
        rw [itemF_false_eq] at h
        cases h
        simp [outputShape, hlen]
      | american =>
        cases hM : mapME americanOut xs with
        | error err => rw [hM] at h; cases h
        | ok ys =>
          simp only [hM, itemF_false_eq] at h
          cases h
          have hlen2 := mapME_length xs ys hM
          simp [outputShape, hlen2, hlen]
      | fractional =>
        cases hM : mapME fractionalOut (xs.map (fun y => y - 1)) with
        | error err => rw [hM] at h; cases h
        | ok fracs =>
          simp only [hM, Bool.false_eq_true, if_false] at h
          cases h
          have hlen2 := mapME_length _ fracs hM
          rw [List.length_map] at hlen2
          simp [outputShape, hlen2, hlen]

/-- Sequence inputs of odds_to_decimal under a numeric source format
produce same-length sequence outputs. -/
theorem odds_to_decimal_seq_shape (inp : OddsInput) (es : List Elem)
    (hsc : isScalarInput inp = false) (hen : ensure1d inp = mapME Elem.toFloat es)
    (fmt : OddsFormat) (hf : fmt ≠ .fractional) (r : OddsOutput)
    (h : odds_to_decimal inp fmt = .ok r) : outputShape r = some es.length := by
  cases fmt with
  | fractional => exact absurd rfl hf
  | decimal =>
    simp only [odds_to_decimal, hen, hsc] at h
    cases hE : mapME Elem.toFloat es with
    | error err => rw [hE] at h; cases h
    | ok xs =>
      simp only [hE, itemF_false_eq] at h
      cases h
      simp [outputShape, mapME_length es xs hE]
  | american =>
    simp only [odds_to_decimal, hen, hsc] at h
    cases hE : mapME Elem.toFloat es with
    | error err => rw [hE] at h; cases h
    | ok xs =>
      simp only [hE] at h
      by_cases h0 : xs.any (fun y => decide (y = 0)) = true
      · rw [if_pos h0] at h; cases h
      · rw [if_neg h0] at h
        by_cases hb : (xs.filter (fun y => decide (|y| < 100))).isEmpty = true
        · rw [if_pos hb, itemF_false_eq] at h
          cases h
          simp [outputShape, List.length_map, mapME_length es xs hE]
        · rw [if_neg hb] at h; cases h

/-- Fractional-source conversion yields exactly one odds value per
coerced element (as a scalar when there is exactly one). -/
theorem odds_to_decimal_fractional_count (inp : OddsInput) (es : List Elem)
    (hsc : isScalarInput inp = false) (hco : coerceFractionalInputs inp = es)
    (r : OddsOutput) (h : odds_to_decimal inp .fractional = .ok r) :
    outputCount r = es.length := by
  simp only [odds_to_decimal, hco, hsc] at h
  cases hM : mapME fracElemConvert es with
  | error err => rw [hM] at h; cases h
  | ok conv =>
    simp only [hM] at h
    have hlen := mapME_length es conv hM
    by_cases h1 : es.length = 1
    · have hb : (false || decide (es.length = 1)) = true := by simp [h1]
      rw [hb] at h
      obtain ⟨x, hx, rfl⟩ := itemF_true_ok conv r h
      simp [outputCount, h1]
    · have hb : (false || decide (es.length = 1)) = false := by simp [h1]
      rw [hb, itemF_false_eq] at h
      cases h
      simp [outputCount, hlen]

/-- A list that is not a two-element all-numeric list is coerced
elementwise, with no pair collapse. -/
theorem coerce_lst_of_not_pair (es : List Elem)
    (hnc : ¬ (es.length = 2 ∧ es.all Elem.isComponent = true)) :
    coerceFractionalInputs (.lst es) = es := by
  rcases es with _ | ⟨a, t⟩
  · rfl
  rcases t with _ | ⟨b, t2⟩
  · rfl
  rcases t2 with _ | ⟨c, t3⟩
  · simp only [coerceFractionalInputs]
    rw [if_neg]
    intro hab
    apply hnc
    refine ⟨rfl, ?_⟩
    simp only [List.all_cons, List.all_nil, Bool.and_true]
    exact hab
  · rfl

/-! ## Pair conversion lemmas -/

/-- An integer numerator/denominator pair with nonzero denominator and
positive value converts to n/m + 1. -/
theorem fracElemConvert_int_pair (n m : ℤ) (hm : m ≠ 0) (hpos : 0 < (n : ℚ) / (m : ℚ)) :
    fracElemConvert (.tupEl (.int n) (.int m)) = .ok ((n : ℚ) / (m : ℚ) + 1) := by
  have hmQ : (m : ℚ) ≠ 0 := by exact_mod_cast hm
  have hnum : ¬ ((n : ℚ) / (m : ℚ)).num ≤ 0 := not_le.mpr (Rat.num_pos.mpr hpos)
  have hden : ¬ ((((n : ℚ) / (m : ℚ)).den : ℤ) ≤ 0) := by
    have hp := ((n : ℚ) / (m : ℚ)).den_pos
    exact not_le.mpr (by exact_mod_cast hp)
  simp [fracElemConvert, fractionOfPair, Elem.ratValue, hmQ, hnum, hden]

/-- A two-element integer tuple collapses to one pair and converts to a
single scalar value. -/
theorem odds_to_decimal_int_pair_tup (n m : ℤ) (hm : m ≠ 0) (hpos : 0 < (n : ℚ) / (m : ℚ)) :
    odds_to_decimal (.tup [.int n, .int m]) .fractional =
      .ok (.scalarF ((n : ℚ) / (m : ℚ) + 1)) := by
  have hc := fracElemConvert_int_pair n m hm hpos
  simp [odds_to_decimal, coerceFractionalInputs, isScalarInput, Elem.isComponent,
    mapME, hc, itemF]

/-- A two-element integer list collapses to one pair and converts to a
single scalar value. -/
theorem odds_to_decimal_int_pair_lst (n m : ℤ) (hm : m ≠ 0) (hpos : 0 < (n : ℚ) / (m : ℚ)) :
    odds_to_decimal (.lst [.int n, .int m]) .fractional =
      .ok (.scalarF ((n : ℚ) / (m : ℚ) + 1)) := by
  have hc := fracElemConvert_int_pair n m hm hpos
  simp [odds_to_decimal, coerceFractionalInputs, isScalarInput, Elem.isComponent,
    mapME, hc, itemF]

/-- Under a numeric source format a two-element numeric tuple is treated
as scalar, and the final scalar extraction from the two-element result
array always fails: no output is produced. -/
theorem odds_to_decimal_pair_numeric_no_output (a b : ℚ) (fmt : OddsFormat)
    (hf : fmt ≠ .fractional) (r : OddsOutput) :
    odds_to_decimal (.tup [.flt a, .flt b]) fmt ≠ .ok r := by
  intro h
  have hE : ensure1d (.tup [.flt a, .flt b]) = .ok [a, b] := rfl
  have hsc : isScalarInput (.tup [.flt a, .flt b]) = true := rfl
  cases fmt with
  | fractional => exact hf rfl
  | decimal =>
    simp only [odds_to_decimal, hE, hsc] at h
    simp [itemF] at h
  | american =>
    simp only [odds_to_decimal, hE, hsc] at h
    by_cases h0 : [a, b].any (fun y => decide (y = 0)) = true
    · rw [if_pos h0] at h; cases h
    · rw [if_neg h0] at h
      by_cases hb : ([a, b].filter (fun y => decide (|y| < 100))).isEmpty = true
      · rw [if_pos hb] at h
        simp [itemF] at h
      · rw [if_neg hb] at h; cases h

/-- decimal_to_odds never produces an output on a two-element numeric
tuple: the pair counts as scalar and the scalar extraction from the
two-element array fails for every target format. -/
theorem decimal_to_odds_pair_no_output (a b : ℚ) (fmt : OddsFormat) (r : OddsOutput) :
    decimal_to_odds (.tup [.flt a, .flt b]) fmt ≠ .ok r := by
  intro h
  have hE : ensure1d (.tup [.flt a, .flt b]) = .ok [a, b] := rfl
  have hsc : isScalarInput (.tup [.flt a, .flt b]) = true := rfl
  simp only [decimal_to_odds, hE, hsc] at h
  by_cases hv : [a, b].any (fun y => decide (y < 1)) = true
  · rw [if_pos hv] at h; cases h
  · rw [if_neg hv] at h
    cases fmt with
    | decimal => simp [itemF] at h
    | american =>
      cases hM : mapME americanOut [a, b] with
      | error err => rw [hM] at h; cases h
      | ok ys =>
        simp only [hM] at h
        have hlen := mapME_length _ ys hM
        rcases ys with _ | ⟨y1, _ | ⟨y2, t⟩⟩
        · simp at hlen
        · simp at hlen
        · simp [itemF] at h
    | fractional =>
      cases hM : mapME fractionalOut ([a, b].map (fun y => y - 1)) with
      | error err => rw [hM] at h; cases h
      | ok fracs =>
        simp only [hM] at h
        have hlen := mapME_length _ fracs hM
        simp only [List.length_map] at hlen
        rcases fracs with _ | ⟨p1, _ | ⟨p2, t⟩⟩
        · simp at hlen
        · simp at hlen
        · simp at h

/-- Fractional sequence conversion with more than one coerced element
yields a same-length array. -/
theorem odds_to_decimal_fractional_seq_shape (inp : OddsInput) (es : List Elem)
    (hsc : isScalarInput inp = false) (hco : coerceFractionalInputs inp = es)
    (hne1 : es.length ≠ 1) (r : OddsOutput)
    (h : odds_to_decimal inp .fractional = .ok r) : outputShape r = some es.length := by
  simp only [odds_to_decimal, hco, hsc] at h
  cases hM : mapME fracElemConvert es with
  | error err => rw [hM] at h; cases h
  | ok conv =>
    simp only [hM] at h
    have hb : (false || decide (es.length = 1)) = false := by simp [hne1]
    rw [hb, itemF_false_eq] at h
    cases h
    simp [outputShape, mapME_length es conv hM]

/-- Same-length preservation of decimal_to_odds on list inputs. -/
theorem decimal_to_odds_lst_shape (es : List Elem) (fmt : OddsFormat) (r : OddsOutput)
    (h : decimal_to_odds (.lst es) fmt = .ok r) : outputShape r = some es.length :=
  decimal_to_odds_seq_shape (.lst es) es rfl rfl fmt r h

/-- Same-length preservation of decimal_to_odds on 1-D array inputs. -/
theorem decimal_to_odds_arr_shape (es : List Elem) (fmt : OddsFormat) (r : OddsOutput)
    (h : decimal_to_odds (.arr es) fmt = .ok r) : outputShape r = some es.length :=
  decimal_to_odds_seq_shape (.arr es) es rfl rfl fmt r h

/-- Scalar shape preservation through the convert_odds pivot. -/
theorem convert_odds_scalar_shape (e : Elem) (f t : OddsFormat) (r : OddsOutput)
    (h : convert_odds (.scalar e) f t = .ok r) : isSeqOutput r = false := by
  simp only [convert_odds] at h
  cases hI : odds_to_decimal (.scalar e) f with
  | error err => rw [hI] at h; cases h
  | ok r1 =>
    simp only [hI] at h
    have hs1 := odds_to_decimal_scalar_shape e f r1 hI
    cases r1 with
    | scalarF x => exact decimal_to_odds_scalar_shape (.flt x) t r h
    | scalarS n m => exact decimal_to_odds_scalar_shape (.text n m) t r h
    | arrF xs => simp [isSeqOutput] at hs1
    | arrS ps => simp [isSeqOutput] at hs1

/-- Sequence length preservation through the convert_odds pivot for a
numeric source format. -/
theorem convert_odds_lst_shape (es : List Elem) (f t : OddsFormat) (hf : f ≠ .fractional)
    (r : OddsOutput) (h : convert_odds (.lst es) f t = .ok r) :
    outputShape r = some es.length := by
  simp only [convert_odds] at h
  cases hI : odds_to_decimal (.lst es) f with
  | error err => rw [hI] at h; cases h
  | ok r1 =>
    simp only [hI] at h
    have hs1 := odds_to_decimal_seq_shape (.lst es) es rfl rfl f hf r1 hI
    cases r1 with
    | scalarF x => simp [outputShape] at hs1
    | scalarS n m => simp [outputShape] at hs1
    | arrF xs =>
      simp only [outputShape, Option.some.injEq] at hs1
      have h2 := decimal_to_odds_arr_shape (xs.map Elem.flt) t r h
      rw [h2, List.length_map, hs1]
    | arrS ps =>
      simp only [outputShape, Option.some.injEq] at hs1
      simp only [outputToInput] at h
      have h2 := decimal_to_odds_arr_shape _ t r h
      rw [h2, List.length_map, hs1]

/-- C3 (amended): scalar inputs (numbers, text fractions, exact
rationals) yield scalar outputs in all three conversion operations;
sequence inputs of length N yield sequence outputs of length N for both
directional converters and the router, except that the fractional source
of odds_to_decimal returns a scalar when the coerced element list has
exactly one element (a one-element sequence, or a two-element numeric
pair, which is scalar only there: under numeric formats the scalar
extraction of a pair fails and no output is produced). -/
theorem C3_shape_contract :
    (∀ (fmt : OddsFormat) (e : Elem) (r : OddsOutput),
      odds_to_decimal (.scalar e) fmt = .ok r → isSeqOutput r = false) ∧
    (∀ (fmt : OddsFormat) (e : Elem) (r : OddsOutput),
      decimal_to_odds (.scalar e) fmt = .ok r → isSeqOutput r = false) ∧
    (∀ (f t : OddsFormat) (e : Elem) (r : OddsOutput),
      convert_odds (.scalar e) f t = .ok r → isSeqOutput r = false) ∧
    (∀ (n m : ℤ), 0 < n → 0 < m →
      odds_to_decimal (.tup [.int n, .int m]) .fractional =
        .ok (.scalarF ((n : ℚ) / (m : ℚ) + 1))) ∧
    (∀ (a b : ℚ) (fmt : OddsFormat) (r : OddsOutput), fmt ≠ .fractional →
      odds_to_decimal (.tup [.flt a, .flt b]) fmt ≠ .ok r) ∧
    (∀ (a b : ℚ) (fmt : OddsFormat) (r : OddsOutput),
      decimal_to_odds (.tup [.flt a, .flt b]) fmt ≠ .ok r) ∧
    (∀ (es : List Elem) (fmt : OddsFormat) (r : OddsOutput), fmt ≠ .fractional →
      odds_to_decimal (.lst es) fmt = .ok r → outputShape r = some es.length) ∧
    (∀ (e : Elem) (r : OddsOutput),
      odds_to_decimal (.lst [e]) .fractional = .ok r → isSeqOutput r = false) ∧
    (∀ (es : List Elem) (r : OddsOutput),
      ¬ (es.length = 2 ∧ es.all Elem.isComponent = true) → es.length ≠ 1 →
      odds_to_decimal (.lst es) .fractional = .ok r → outputShape r = some es.length) ∧
    (∀ (es : List Elem) (fmt : OddsFormat) (r : OddsOutput),
      decimal_to_odds (.lst es) fmt = .ok r → outputShape r = some es.length) ∧
    (∀ (es : List Elem) (f t : OddsFormat) (r : OddsOutput), f ≠ .fractional →
      convert_odds (.lst es) f t = .ok r → outputShape r = some es.length) := by
  refine ⟨?_, ?_, ?_, ?_, ?_, ?_, ?_, ?_, ?_, ?_, ?_⟩
  · intro fmt e r h
    exact odds_to_decimal_scalar_shape e fmt r h
  · intro fmt e r h
    exact decimal_to_odds_scalar_shape e fmt r h
  · intro f t e r h
    exact convert_odds_scalar_shape e f t r h
  · intro n m hn hm
    exact odds_to_decimal_int_pair_tup n m (by omega)
      (div_pos (by exact_mod_cast hn) (by exact_mod_cast hm))
  · intro a b fmt r hf
    exact odds_to_decimal_pair_numeric_no_output a b fmt hf r
  · intro a b fmt r
    exact decimal_to_odds_pair_no_output a b fmt r
  · intro es fmt r hf h
    exact odds_to_decimal_seq_shape (.lst es) es rfl rfl fmt hf r h
  · intro e r h
    have hco : coerceFractionalInputs (.lst [e]) = [e] := rfl
    simp only [odds_to_decimal, hco] at h
    have hsf : (isScalarInput (OddsInput.lst [e]) ||
        decide (([e] : List Elem).length = 1)) = true := by simp
    rw [hsf] at h
    cases hM : mapME fracElemConvert [e] with
    | error err => rw [hM] at h; cases h
    | ok conv =>
      simp only [hM] at h
      obtain ⟨x1, hx1, rfl⟩ := itemF_true_ok conv r h
      rfl
  · intro es r hnc hne1 h
    exact odds_to_decimal_fractional_seq_shape (.lst es) es rfl
      (coerce_lst_of_not_pair es hnc) hne1 r h
  · intro es fmt r h
    exact decimal_to_odds_lst_shape es fmt r h
  · intro es f t r hf h
    exact convert_odds_lst_shape es f t hf r h

/-- C3 witness: a concrete scalar conversion and a concrete length-2
batch conversion instantiate the shape contract. -/
theorem C3_shape_contract_witness :
    isSeqOutput (OddsOutput.scalarF (5/2)) = false ∧
    outputShape (OddsOutput.arrF [5/2, 11/6]) = some 2 := by
  have h := C3_shape_contract
  constructor
  · exact h.1 .american (.int 150) (.scalarF (5/2))
      (by norm_num [odds_to_decimal, ensure1d, Elem.toFloat, isScalarInput,
        decide_eq_true_eq, List.filter_cons, itemF])
  · have h7 := h.2.2.2.2.2.2.1 [.int 150, .int (-120)] .american (.arrF [5/2, 11/6])
      (by intro hc; cases hc)
      (by norm_num [odds_to_decimal, ensure1d, Elem.toFloat, isScalarInput, mapME,
        decide_eq_true_eq, List.filter_cons, itemF])
    simpa using h7

/-- C3 counterexample: a one-element sequence input under the fractional
source yields a scalar output, not a length-1 sequence. -/
theorem C3_counterexample :
    odds_to_decimal (.lst [.text 5 2]) .fractional = .ok (.scalarF (7/2)) ∧
    isSeqOutput (OddsOutput.scalarF (7/2)) = false := by
  constructor
  · norm_num [odds_to_decimal, coerceFractionalInputs, isScalarInput, mapME,
      fracElemConvert, mkFraction, itemF]
  · rfl

/-- C6 (amended): a top-level two-element list or tuple of exact-rational
numeric components is interpreted as a single numerator/denominator pair
and produces one scalar odds value; a two-element 1-D ndarray is not
collapsed and produces two independent values; and a list that does not
collapse produces exactly as many values as it has elements. -/
theorem C6_pair_collapse :
    (∀ (n m : ℤ), 0 < n → 0 < m →
      odds_to_decimal (.tup [.int n, .int m]) .fractional =
        .ok (.scalarF ((n : ℚ) / (m : ℚ) + 1)) ∧
      odds_to_decimal (.lst [.int n, .int m]) .fractional =
        .ok (.scalarF ((n : ℚ) / (m : ℚ) + 1))) ∧
    odds_to_decimal (.tup [.int 3, .int 1]) .fractional = .ok (.scalarF 4) ∧
    (∀ (es : List Elem) (r : OddsOutput),
      ¬ (es.length = 2 ∧ es.all Elem.isComponent = true) →
      odds_to_decimal (.lst es) .fractional = .ok r → outputCount r = es.length) ∧
    (∀ (es : List Elem) (r : OddsOutput),
      odds_to_decimal (.arr es) .fractional = .ok r → outputCount r = es.length) ∧
    odds_to_decimal (.arr [.flt 3, .flt 1]) .fractional = .ok (.arrF [4, 2]) := by
  refine ⟨?_, ?_, ?_, ?_, ?_⟩
  · intro n m hn hm
    have hmne : m ≠ 0 := by omega
    have hpos : 0 < (n : ℚ) / (m : ℚ) :=
      div_pos (by exact_mod_cast hn) (by exact_mod_cast hm)
    exact ⟨odds_to_decimal_int_pair_tup n m hmne hpos,
      odds_to_decimal_int_pair_lst n m hmne hpos⟩
  · norm_num [odds_to_decimal, coerceFractionalInputs, isScalarInput, Elem.isComponent,
      mapME, fracElemConvert, fractionOfPair, Elem.ratValue, itemF, limit_denominator]
  · intro es r hnc h
    exact odds_to_decimal_fractional_count (.lst es) es rfl
      (coerce_lst_of_not_pair es hnc) r h
  · intro es r h
    exact odds_to_decimal_fractional_count (.arr es) es rfl rfl r h
  · norm_num [odds_to_decimal, coerceFractionalInputs, isScalarInput, mapME,
      fracElemConvert, itemF, limit_denominator]

/-- C6 witness: the pair rule at (3, 1). -/
theorem C6_pair_collapse_witness :
    odds_to_decimal (.tup [.int 3, .int 1]) .fractional =
      .ok (.scalarF ((3 : ℚ) / (1 : ℚ) + 1)) :=
  (C6_pair_collapse.1 3 1 (by norm_num) (by norm_num)).1

/-- C6 counterexample: a two-element numeric 1-D ndarray is NOT
interpreted as one pair: it yields two independent values, not the
single scalar value 4.0. -/
theorem C6_counterexample :
    odds_to_decimal (.arr [.flt 3, .flt 1]) .fractional = .ok (.arrF [4, 2]) ∧
    outputCount (OddsOutput.arrF [4, 2]) = 2 ∧
    OddsOutput.arrF [4, 2] ≠ OddsOutput.scalarF 4 := by
  refine ⟨?_, rfl, by simp⟩
  norm_num [odds_to_decimal, coerceFractionalInputs, isScalarInput, mapME,
    fracElemConvert, itemF, limit_denominator]

/-- C9 (amended): batch validation failures abort the whole call with a
typed error, but only the American magnitude check reports all offending
values in its message; the decimal lower-bound check and the American
zero check report none. -/
theorem C9_batch_error_reporting :
    (∀ (fmt : OddsFormat) (xs : List ℚ) (x : ℚ), x ∈ xs → x < 1 →
      decimal_to_odds (.lst (xs.map Elem.flt)) fmt = .error (.invalidOdds [])) ∧
    (∀ (xs : List ℚ) (x : ℚ), x ∈ xs → x = 0 →
      odds_to_decimal (.lst (xs.map Elem.flt)) .american = .error (.invalidOdds [])) ∧
    (∀ xs : List ℚ, (∀ x ∈ xs, x ≠ 0) →
      xs.filter (fun y => decide (|y| < 100)) ≠ [] →
      odds_to_decimal (.lst (xs.map Elem.flt)) .american =
        .error (.invalidOdds (xs.filter (fun y => decide (|y| < 100))))) := by
  refine ⟨?_, ?_, ?_⟩
  · intro fmt xs x hmem hlt
    have hany : xs.any (fun y => decide (y < 1)) = true :=
      List.any_eq_true.mpr ⟨x, hmem, by simpa using hlt⟩
    simp [decimal_to_odds, ensure1d_lst_flt, hany]
  · intro xs x hmem hzero
    have hany : xs.any (fun y => decide (y = 0)) = true :=
      List.any_eq_true.mpr ⟨x, hmem, by simpa using hzero⟩
    simp [odds_to_decimal, ensure1d_lst_flt, hany]
  · intro xs hnz hne
    have hany : xs.any (fun y => decide (y = 0)) = false := by
      rw [List.any_eq_false]
      intro x hx
      simpa using hnz x hx
    have hemp : (xs.filter (fun y => decide (|y| < 100))).isEmpty = false := by
      cases hfil : xs.filter (fun y => decide (|y| < 100)) with
      | nil => exact absurd hfil hne
      | cons a t => rfl
    simp [odds_to_decimal, ensure1d_lst_flt, hany, hemp]

/-- C9 witness: the batch [150, -99] fails the magnitude check and the
message reports exactly the offending value -99. -/
theorem C9_batch_error_reporting_witness :
    odds_to_decimal (.lst [Elem.flt 150, Elem.flt (-99)]) .american =
      .error (.invalidOdds [-99]) := by
  have hfil : ([150, -99] : List ℚ).filter (fun y => decide (|y| < 100)) = [-99] := by
    norm_num [List.filter_cons, decide_eq_true_eq]
  have h := C9_batch_error_reporting.2.2 [150, -99]
    (by
      rintro x hx
      simp only [List.mem_cons, List.not_mem_nil, or_false] at hx
      rcases hx with rfl | rfl <;> norm_num)
    (by rw [hfil]; exact List.cons_ne_nil _ _)
  rw [hfil] at h
  simpa using h

/-- C9 counterexample: a batch with two offending decimal values fails
with a ValueError whose message reports none of them, not all of them. -/
theorem C9_counterexample :
    decimal_to_odds (.lst [.flt (1/2), .flt (3/4)]) .american = .error (.invalidOdds []) ∧
    OddsError.invalidOdds [] ≠ OddsError.invalidOdds [1/2, 3/4] := by
  constructor
  · norm_num [decimal_to_odds, ensure1d, mapME, Elem.toFloat, isScalarInput,
      decide_eq_true_eq]
  · intro hc
    simp at hc

/-- C8 (amended): per fractional-source element, odds_to_decimal builds a
rational (parsing text n/d, taking exact rationals as-is, approximating
plain numbers by the nearest rational with denominator at most 1000, or
taking a two-element pair of exact rationals as numerator/denominator)
and yields value + 1; it fails with InvalidOdds when the built rational
is not positive (the normalized denominator is always positive, so only
the numerator check can fire), with ZeroDivisionError (not InvalidOdds)
when a text or pair denominator is zero, and with TypeMismatch when an
element is not text/rational/number/pair or when a pair component is not
an exact rational (for example a float). -/
theorem C8_fractional_elements :
    (∀ n m : ℤ, m ≠ 0 → 0 < (n : ℚ) / (m : ℚ) →
      odds_to_decimal (.scalar (.text n m)) .fractional =
        .ok (.scalarF ((n : ℚ) / (m : ℚ) + 1))) ∧
    (∀ n m : ℤ, m ≠ 0 → (n : ℚ) / (m : ℚ) ≤ 0 →
      odds_to_decimal (.scalar (.text n m)) .fractional = .error (.invalidOdds [])) ∧
    (∀ n : ℤ,
      odds_to_decimal (.scalar (.text n 0)) .fractional = .error .zeroDivision) ∧
    (∀ q : ℚ, 0 < q →
      odds_to_decimal (.scalar (.frac q)) .fractional = .ok (.scalarF (q + 1))) ∧
    (∀ q : ℚ, q ≤ 0 →
      odds_to_decimal (.scalar (.frac q)) .fractional = .error (.invalidOdds [])) ∧
    (∀ x : ℚ, odds_to_decimal (.scalar (.flt x)) .fractional =
      (if (limit_denominator x 1000).num ≤ 0 then .error (.invalidOdds [])
       else .ok (.scalarF (limit_denominator x 1000 + 1)))) ∧
    (∀ n m : ℤ, m ≠ 0 → 0 < (n : ℚ) / (m : ℚ) →
      odds_to_decimal (.scalar (.tupEl (.int n) (.int m))) .fractional =
        .ok (.scalarF ((n : ℚ) / (m : ℚ) + 1))) ∧
    (∀ n : ℤ, odds_to_decimal (.scalar (.tupEl (.int n) (.int 0))) .fractional =
      .error .zeroDivision) ∧
    (∀ (x : ℚ) (b : Elem),
      odds_to_decimal (.scalar (.tupEl (.flt x) b)) .fractional = .error .typeMismatch) ∧
    (∀ (n : ℤ) (x : ℚ),
      odds_to_decimal (.scalar (.tupEl (.int n) (.flt x))) .fractional =
        .error .typeMismatch) ∧
    odds_to_decimal (.scalar .other) .fractional = .error .typeMismatch := by
  refine ⟨?_, ?_, ?_, ?_, ?_, ?_, ?_, ?_, ?_, ?_, ?_⟩
  · intro n m hm hpos
    exact odds_to_decimal_text n m hm hpos
  · intro n m hm hnp
    have hnum : ((n : ℚ) / (m : ℚ)).num ≤ 0 := Rat.num_nonpos.mpr hnp
    simp [odds_to_decimal, coerceFractionalInputs, isScalarInput, mapME,
      fracElemConvert, mkFraction, hm, hnum, itemF]
  · intro n
    simp [odds_to_decimal, coerceFractionalInputs, isScalarInput, mapME,
      fracElemConvert, mkFraction, itemF]
  · intro q hq
    have hnum : ¬ q.num ≤ 0 := not_le.mpr (Rat.num_pos.mpr hq)
    have hden : ¬ ((q.den : ℤ) ≤ 0) := by
      have hp := q.den_pos
      exact not_le.mpr (by exact_mod_cast hp)
    simp [odds_to_decimal, coerceFractionalInputs, isScalarInput, mapME,
      fracElemConvert, hnum, hden, itemF]
  · intro q hq
    have hnum : q.num ≤ 0 := Rat.num_nonpos.mpr hq
    simp [odds_to_decimal, coerceFractionalInputs, isScalarInput, mapME,
      fracElemConvert, hnum, itemF]
  · intro x
    by_cases hnum : (limit_denominator x 1000).num ≤ 0
    · simp [odds_to_decimal, coerceFractionalInputs, isScalarInput, mapME,
        fracElemConvert, hnum, itemF]
    · have hden : ¬ (((limit_denominator x 1000).den : ℤ) ≤ 0) := by
        have hp := (limit_denominator x 1000).den_pos
        exact not_le.mpr (by exact_mod_cast hp)
      simp [odds_to_decimal, coerceFractionalInputs, isScalarInput, mapME,
        fracElemConvert, hnum, hden, itemF]
  · intro n m hm hpos
    have hc := fracElemConvert_int_pair n m hm hpos
    simp [odds_to_decimal, coerceFractionalInputs, isScalarInput, mapME, hc, itemF]
  · intro n
    simp [odds_to_decimal, coerceFractionalInputs, isScalarInput, mapME,
      fracElemConvert, fractionOfPair, Elem.ratValue, itemF]
  · intro x b
    cases b <;>
      simp [odds_to_decimal, coerceFractionalInputs, isScalarInput, mapME,
        fracElemConvert, fractionOfPair, Elem.ratValue, itemF]
  · intro n x
    simp [odds_to_decimal, coerceFractionalInputs, isScalarInput, mapME,
      fracElemConvert, fractionOfPair, Elem.ratValue, itemF]
  · simp [odds_to_decimal, coerceFractionalInputs, isScalarInput, mapME,
      fracElemConvert, itemF]

/-- C8 witness: the text element 5/2 converts to 7/2. -/
theorem C8_fractional_elements_witness :
    odds_to_decimal (.scalar (.text 5 2)) .fractional = .ok (.scalarF ((5 : ℚ) / (2 : ℚ) + 1)) :=
  C8_fractional_elements.1 5 2 (by norm_num) (by norm_num)

/-- C8 counterexample: the pair (3, 0) has a denominator that is not
strictly positive, but the call fails with ZeroDivisionError, not with
the InvalidOdds ValueError the claim requires. -/
theorem C8_counterexample :
    odds_to_decimal (.tup [.int 3, .int 0]) .fractional = .error .zeroDivision ∧
    OddsError.zeroDivision.isInvalidOdds = false := by
  constructor
  · norm_num [odds_to_decimal, coerceFractionalInputs, isScalarInput, Elem.isComponent,
      mapME, fracElemConvert, fractionOfPair, Elem.ratValue, itemF]
  · rfl

end Oddslib
